import Mathlib

/-
Verification of super-regex (src/index.ts, src/functionTimeout.ts).

The code is shallowly embedded: the deadline-guarded invocation of a closure
is modelled by a computation record (its wall-clock cost in milliseconds and
what it does), the vm isolation layer is modelled per the spec's Deadline
Executor interface (an external collaborator of this library), and the
generator body of matches is modelled as a recursion over the list of
behaviours of the successive cursor next() calls.  JavaScript time budgets
are IEEE numbers where Infinity is the default; JsNum models exactly the
operations the source performs on them.
-/

namespace SuperRegex

/-- Model of a JavaScript error value: the only parts this library ever
inspects are the optional code property and the message. -/
structure JsError where
  code : Option String
  message : String
deriving DecidableEq, Repr

/-- The code carried by the error the isolation layer throws when a script
exceeds its timeout option. -/
def timeoutErrorCode : String := "ERR_SCRIPT_EXECUTION_TIMEOUT"

/-- The error the isolation layer throws on a deadline breach (spec 4.1:
on breach the underlying isolation layer forcibly terminates the in-flight
evaluation and the executor raises a TimeoutError). -/
def vmTimeoutError : JsError := ⟨some timeoutErrorCode, "Script execution timed out."⟩

/-- Source: functionTimeout.ts lines 60-61.  Duck-typed predicate on the
code property of the error value. -/
def isTimeoutError (e : JsError) : Bool := e.code == some timeoutErrorCode

/-- A JavaScript number as used for the time budgets here: positive infinity
(the default, meaning unbounded) or a finite count of milliseconds. -/
inductive JsNum where
  | inf : JsNum
  | fin (q : ℚ) : JsNum
deriving DecidableEq, Repr

/-- Math.min on budget values: Infinity is an identity, two finite values
take the smaller. -/
def jmin : JsNum → JsNum → JsNum
  | .inf, b => b
  | .fin a, .inf => .fin a
  | .fin a, .fin b => .fin (min a b)

/-- Subtraction of an integer from a rational, written through mkRat so
that concrete instances evaluate by kernel reduction; subInt_eq below
identifies it with ordinary subtraction. -/
def subInt (q : ℚ) (d : ℤ) : ℚ := mkRat (q.num - d * (q.den : ℤ)) q.den

/-- Budget subtraction of a whole number of milliseconds, as IEEE
arithmetic behaves on these values: Infinity minus a finite value is
Infinity (the unbounded sentinel is absorbing), a finite value is
decremented. -/
def jsub : JsNum → ℤ → JsNum
  | .inf, _ => .inf
  | .fin q, d => .fin (subInt q d)

/-- Numeric comparison on budget values, Infinity above every finite. -/
def jleB : JsNum → JsNum → Bool
  | _, .inf => true
  | .inf, .fin _ => false
  | .fin a, .fin b => decide (a ≤ b)

/-- Strict version of jleB. -/
def jltB (a b : JsNum) : Bool := jleB a b && !(decide (a = b))

/-- What a guarded closure does when invoked: returns a value, throws an
error, or never finishes. -/
inductive Act (α : Type) where
  | ret (v : α) : Act α
  | throwErr (e : JsError) : Act α
  | diverge : Act α
deriving DecidableEq, Repr

/-- One invocation of a guarded closure: the wall-clock milliseconds it
takes, and what it does. -/
structure Comp (α : Type) where
  cost : ℚ
  act : Act α
deriving DecidableEq, Repr

/-- Outcome of invoking the wrapper returned by functionTimeout. -/
inductive FTResult (α : Type) where
  | ok (v : α) : FTResult α
  | thrown (e : JsError) : FTResult α
  | hangs : FTResult α
deriving DecidableEq, Repr

/-- Source: functionTimeout.ts lines 39-55.  The wrapper stores the closure
on the evaluation context, runs the fixed script (returnValue =
functionToRun()) in that context under the timeout option, and returns the
stored returnValue.  The vm boundary is modelled per the spec's Deadline
Executor interface: with a finite timeout, a closure whose cost exceeds it
is forcibly terminated and the timeout error is thrown; within the deadline
the closure's own return or throw passes through unchanged; with no timeout
there is no enforced cutoff. -/
def functionTimeout {α : Type} (f : Comp α) (timeout : Option JsNum) : FTResult α :=
  match timeout with
  | some (.fin T) =>
    match f.act with
    | .ret v => if T < f.cost then .thrown vmTimeoutError else .ok v
    | .throwErr e => if T < f.cost then .thrown vmTimeoutError else .thrown e
    | .diverge => .thrown vmTimeoutError
  | _ =>
    match f.act with
    | .ret v => .ok v
    | .throwErr e => .thrown e
    | .diverge => .hangs

/-- Outcome of one of the facade entry points: a returned value, a
propagated error, or a hang. -/
inductive CallOut (α : Type) where
  | ret (v : α) : CallOut α
  | thrown (e : JsError) : CallOut α
  | hangs : CallOut α
deriving DecidableEq, Repr

/-- A raw regex-engine result as the JavaScript exec/matchAll array exposes
it: element 0 (the full matched text), index, the capture slots from
position 1 on (slice(1), each possibly undefined), the optional groups
object (as an association list), and input. -/
structure RawResult where
  elem0 : String
  index : ℕ
  rest : List (Option String)
  groups : Option (List (String × String))
  input : String
deriving DecidableEq, Repr

/-- The public Match record (src/index.ts lines 6-12); field match is
spelled matched because match is reserved in Lean. -/
structure Match where
  matched : String
  index : ℕ
  groups : List (Option String)
  namedGroups : List (String × String)
  input : String
deriving DecidableEq, Repr

/-- Source: index.ts lines 21-27. -/
def resultToMatch (result : RawResult) : Match :=
  { matched := result.elem0
    index := result.index
    groups := result.rest
    namedGroups := result.groups.getD []
    input := result.input }

/-- The pieces of a RegExp object this library reads or that its external
collaborators mutate: source text, the global and sticky flags, and the
mutable scan position lastIndex. -/
structure Regexp where
  source : String
  global : Bool
  sticky : Bool
  lastIndex : ℕ
deriving DecidableEq, Repr

/-- structuredClone on a RegExp, per the spec's interface for the clone
(spec 4.2: the clone preserves flags, including global and sticky, and
carries over no mutable scan-position state). -/
def structuredClone (r : Regexp) : Regexp := { r with lastIndex := 0 }

/-- Source: index.ts lines 43-53.  The guarded closure
() => structuredClone(regex).test(string) is abstracted as a computation
over Bool; a timeout error is mapped to false, other errors rethrow. -/
def isMatch (comp : Comp Bool) (timeout : Option JsNum) : CallOut Bool :=
  match functionTimeout comp timeout with
  | .ok b => .ret b
  | .thrown e => if isTimeoutError e then .ret false else .thrown e
  | .hangs => .hangs

/-- A regex engine's test method as a black box: given the regex object it
runs on and the subject, it produces the boolean answer and the lastIndex
it leaves on that object. -/
def TestEngine : Type := Regexp → String → Bool × ℕ

/-- The value computed by the guarded closure of isMatch: the engine's test
run on the structured clone; the clone's mutated lastIndex is discarded
with the clone. -/
def testOnClone (E : TestEngine) (r : Regexp) (s : String) : Bool :=
  (E (structuredClone r) s).1

/-- isMatch when the engine's test on the clone completes, taking wall time
c, against the given timeout option. -/
def isMatchRun (E : TestEngine) (r : Regexp) (s : String) (c : ℚ)
    (timeout : Option JsNum) : CallOut Bool :=
  isMatch ⟨c, .ret (testOnClone E r s)⟩ timeout

/-- JavaScript objects are passed by reference, so a call that could mutate
its regex argument is modelled state-passing style, returning the
argument's state after the call.  The source of isMatch never writes to
regex (test runs on the structured clone), so the state after the call is
the state before. -/
def isMatchCall (E : TestEngine) (r : Regexp) (s : String) (c : ℚ)
    (timeout : Option JsNum) : CallOut Bool × Regexp :=
  (isMatchRun E r s c timeout, r)

/-- Source: index.ts lines 67-89.  The guarded closure
() => structuredClone(regex).exec(string) is abstracted as a computation
over Option RawResult (none models the null returned on no match). -/
def firstMatch (comp : Comp (Option RawResult)) (timeout : Option JsNum) :
    CallOut (Option Match) :=
  match functionTimeout comp timeout with
  | .ok none => .ret none
  | .ok (some result) => .ret (some (resultToMatch result))
  | .thrown e => if isTimeoutError e then .ret none else .thrown e
  | .hangs => .hangs

/-- Source: index.ts line 114, the exact message of the usage error thrown
when the global flag is missing. -/
def matchesUsageError : JsError :=
  ⟨none, "The regex must have the global flag, otherwise, use `firstMatch()` instead"⟩

/-- Source: index.ts lines 105-117: the body of matches that runs at call
time.  It checks the global flag and either throws the usage error or
returns the iterable, whose captured state is the pair of the mutable
timeout variable and matchTimeout (both default to Infinity); no regex
evaluation happens here (the comment on line 120: the regex is only
executed when iterated over). -/
def «matches» (regex : Regexp) (timeout matchTimeout : JsNum) :
    Except JsError (JsNum × JsNum) :=
  if regex.global = false then .error matchesUsageError
  else .ok (timeout, matchTimeout)

/-- The value a cursor next() call produces: a raw result, or exhaustion. -/
inductive IterResult where
  | step (r : RawResult) : IterResult
  | done : IterResult
deriving DecidableEq, Repr

/-- How one run of the generator body ends: pending means the supplied
environment ran out of next() behaviours with the loop still going. -/
inductive EndKind where
  | pending : EndKind
  | exhausted : EndKind
  | timedOut : EndKind
  | errored (e : JsError) : EndKind
  | hangs : EndKind
deriving DecidableEq, Repr

/-- Source: index.ts lines 125-128, the timeout option handed to
functionTimeout on each step: min(timeout, matchTimeout) when at least one
of the two differs from Infinity, else undefined. -/
def stepDeadline (timeout matchTimeout : JsNum) : Option JsNum :=
  if timeout ≠ JsNum.inf ∨ matchTimeout ≠ JsNum.inf then some (jmin timeout matchTimeout)
  else none

/-- Source: index.ts lines 118-146, the generator body.  The environment
lists the behaviours of the successive matches2.next() calls (cost and
action of each).  Each loop turn guards the next() call with stepDeadline;
on normal completion the measured elapsed time, rounded up to whole
milliseconds, is subtracted from the timeout variable (line 133), then the
loop breaks on done or yields resultToMatch(value); a thrown error ends the
run, normally when isTimeoutError holds, otherwise propagating the error.
The run returns the yielded matches, the final value of the timeout
variable, and how it ended. -/
def runMatches : JsNum → JsNum → List (Comp IterResult) → List Match × JsNum × EndKind
  | timeout, _, [] => ([], timeout, .pending)
  | timeout, matchTimeout, f :: rest =>
    match functionTimeout f (stepDeadline timeout matchTimeout) with
    | .hangs => ([], timeout, .hangs)
    | .thrown e =>
      if isTimeoutError e then ([], timeout, .timedOut) else ([], timeout, .errored e)
    | .ok r =>
      match r with
      | .done => ([], jsub timeout (Rat.ceil f.cost), .exhausted)
      | .step v =>
        let out := runMatches (jsub timeout (Rat.ceil f.cost)) matchTimeout rest
        (resultToMatch v :: out.1, out.2)

/-- The trace of started deadline-guarded steps of one run: for each
invocation of the guarded next(), the value of the timeout variable at that
moment and the timeout option handed to functionTimeout. -/
def stepLog : JsNum → JsNum → List (Comp IterResult) → List (JsNum × Option JsNum)
  | _, _, [] => []
  | timeout, matchTimeout, f :: rest =>
    (timeout, stepDeadline timeout matchTimeout) ::
      match functionTimeout f (stepDeadline timeout matchTimeout) with
      | .ok (.step _) => stepLog (jsub timeout (Rat.ceil f.cost)) matchTimeout rest
      | _ => []

/-- Total milliseconds a run charges against the timeout variable (the sum
of the rounded-up elapsed times of the guarded calls that completed). -/
def consumed : JsNum → JsNum → List (Comp IterResult) → ℤ
  | _, _, [] => 0
  | timeout, matchTimeout, f :: rest =>
    match functionTimeout f (stepDeadline timeout matchTimeout) with
    | .ok (.step _) =>
      Rat.ceil f.cost + consumed (jsub timeout (Rat.ceil f.cost)) matchTimeout rest
    | .ok .done => Rat.ceil f.cost
    | _ => 0

/-- Obtaining and draining the iterator of one matches(...) iterable twice:
the generator body closes over the single timeout variable of that call,
while the cursor is rebuilt fresh on each iterator request, so the second
drain sees a fresh environment but the budget left by the first. -/
def drainTwice (timeout matchTimeout : JsNum)
    (steps1 steps2 : List (Comp IterResult)) : List Match × List Match × JsNum :=
  let o1 := runMatches timeout matchTimeout steps1
  let o2 := runMatches o1.2.1 matchTimeout steps2
  (o1.1, o2.1, o2.2.1)

/-- The regex engine's exec as a black box (spec section 1: the engine is
an external collaborator offering test, exec and find-all with standard
semantics): the first raw result of the pattern in the subject at or after
a scan position, if any. -/
def Engine : Type := String → ℕ → Option RawResult

/-- The scan position after a result, as string.matchAll advances it: one
past the end of the match; one past its start when the match was empty. -/
def nextScanPos (r : RawResult) : ℕ := r.index + max r.elem0.length 1

/-- Source side: the sequence of raw results the cursor built by
string.matchAll(regex) produces when iterated, from a scan position, with
the empty-match bump; fuel bounds the recursion. -/
def cursorSeq (E : Engine) (s : String) : ℕ → ℕ → List RawResult
  | 0, _ => []
  | fuel + 1, pos =>
    match E s pos with
    | none => []
    | some r => r :: cursorSeq E s fuel (nextScanPos r)

/-- Spec side, following the spec's words: a plain exhaustive forward scan
of the pattern over the string, collecting successive matches of a single
forward pass, each search resuming past the previous match (one position
past its start when it was empty). -/
def plainScan (E : Engine) (s : String) : ℕ → ℕ → List RawResult
  | 0, _ => []
  | fuel + 1, pos =>
    match E s pos with
    | none => []
    | some r => r :: plainScan E s fuel (r.index + max r.elem0.length 1)

/-- An engine is well formed when it only reports matches at or after the
position it was asked to scan from. -/
def EngineWf (E : Engine) : Prop :=
  ∀ s p r, E s p = some r → p ≤ r.index

/-- An environment in which every cursor next() call completes normally:
the i-th call costs cost i and produces the i-th raw result of the list,
and the call after the last one reports exhaustion. -/
def stepsOfScan (cost : ℕ → ℚ) : ℕ → List RawResult → List (Comp IterResult)
  | i, [] => [⟨cost i, .ret .done⟩]
  | i, r :: rs => ⟨cost i, .ret (.step r)⟩ :: stepsOfScan cost (i + 1) rs

/-- Decimal-digit test on a character, as the regex class matches it. -/
def isDigitChar (c : Char) : Bool := decide (48 ≤ c.toNat) && decide (c.toNat ≤ 57)

/-- First maximal run of digits in a character list, reported with the
index of its first character; the second argument is the index of the head
of the list in the original subject. -/
def firstDigitRun : List Char → ℕ → Option (ℕ × List Char)
  | [], _ => none
  | c :: cs, i =>
    if isDigitChar c then some (i, c :: cs.takeWhile isDigitChar)
    else firstDigitRun cs (i + 1)

/-- A concrete engine: the standard semantics of the pattern of one or more
digits with the global flag, searching from a scan position; it captures no
groups and defines no named groups, so the raw groups object is absent. -/
def digitEngine : Engine := fun s pos =>
  match firstDigitRun (s.data.drop pos) pos with
  | none => none
  | some (i, run) => some ⟨⟨run⟩, i, [], none, s⟩

/-! Helper lemmas about the arithmetic of budgets. -/

theorem subInt_eq (q : ℚ) (d : ℤ) : subInt q d = q - (d : ℚ) := by
  have hden : ((q.den : ℚ)) ≠ 0 := by exact_mod_cast q.den_nz
  rw [subInt, Rat.mkRat_eq_div]
  push_cast
  rw [sub_div, Rat.num_div_den]
  congr 1
  rw [mul_div_assoc, div_self hden, mul_one]

theorem ratCeil_eq (q : ℚ) : (Rat.ceil q : ℤ) = ⌈q⌉ := by
  rw [Rat.ceil]
  split
  · next h =>
    have hq : q = ((q.num : ℚ)) := by
      conv_lhs => rw [← Rat.num_div_den q]
      rw [h]
      simp
    conv_rhs => rw [hq]
    rw [Int.ceil_intCast]
  · next h =>
    symm
    rw [Int.ceil_eq_iff]
    have h1 : (⌊q⌋ : ℚ) ≤ q := Int.floor_le q
    have h2 : q ≠ (⌊q⌋ : ℚ) := by
      intro hq
      have : q.den = 1 := by rw [hq]; exact Rat.den_intCast ⌊q⌋
      exact h this
    have h3 : (⌊q⌋ : ℚ) < q := lt_of_le_of_ne h1 (fun hh => h2 hh.symm)
    have h4 := Int.lt_floor_add_one q
    constructor
    · rw [← Rat.floor_def]
      push_cast
      linarith
    · rw [← Rat.floor_def]
      push_cast
      linarith

theorem ratCeil_nonneg {q : ℚ} (h : 0 ≤ q) : 0 ≤ Rat.ceil q := by
  rw [ratCeil_eq]
  exact Int.ceil_nonneg h

theorem jsub_inf (d : ℤ) : jsub .inf d = .inf := rfl

theorem jsub_fin (q : ℚ) (d : ℤ) : jsub (.fin q) d = .fin (q - (d : ℚ)) := by
  rw [jsub, subInt_eq]

theorem jleB_jsub_self {t : JsNum} {d : ℤ} (h : 0 ≤ d) : jleB (jsub t d) t = true := by
  cases t with
  | inf => rfl
  | fin q =>
    rw [jsub_fin, jleB]
    simp only [decide_eq_true_eq]
    have : (0 : ℚ) ≤ (d : ℚ) := by exact_mod_cast h
    linarith

theorem jmin_le_left_fin (q : ℚ) (mt : JsNum) :
    jleB (jmin (.fin q) mt) (.fin q) = true := by
  cases mt with
  | inf => simp [jmin, jleB]
  | fin m => simp [jmin, jleB, min_le_left]

theorem jsub_zero (t : JsNum) : jsub t 0 = t := by
  cases t with
  | inf => rfl
  | fin q => rw [jsub_fin]; simp

theorem jsub_jsub (t : JsNum) (c d : ℤ) : jsub (jsub t c) d = jsub t (c + d) := by
  cases t with
  | inf => rfl
  | fin q =>
    rw [jsub_fin, jsub_fin, jsub_fin]
    push_cast
    ring_nf

/-! Helper lemmas about the iteration. -/

theorem runMatches_nil (t mt : JsNum) : runMatches t mt [] = ([], t, .pending) := rfl

/-- Composition of runs: a run of a step-list prefix that is still pending
continues through appended steps from its final budget. -/
theorem runMatches_append {t mt : JsNum} {s1 : List (Comp IterResult)}
    (s2 : List (Comp IterResult)) {ms : List Match} {t1 : JsNum}
    (h : runMatches t mt s1 = (ms, t1, .pending)) :
    runMatches t mt (s1 ++ s2) =
      (ms ++ (runMatches t1 mt s2).1, (runMatches t1 mt s2).2) := by
  induction s1 generalizing t ms with
  | nil =>
    rw [runMatches_nil] at h
    injection h with h1 h23
    injection h23 with h2 h3
    subst h1
    subst h2
    simp
  | cons f rest ih =>
    rw [List.cons_append]
    rw [runMatches] at h ⊢
    cases hft : functionTimeout f (stepDeadline t mt) with
    | hangs => rw [hft] at h; simp at h
    | thrown e =>
      rw [hft] at h
      by_cases he : isTimeoutError e = true
      · simp [he] at h
      · simp [he] at h
    | ok r =>
      rw [hft] at h
      cases r with
      | done => simp at h
      | step v =>
        simp only [Prod.mk.injEq] at h
        obtain ⟨hms, hsnd⟩ := h
        have hrest : runMatches (jsub t (Rat.ceil f.cost)) mt rest =
            ((runMatches (jsub t (Rat.ceil f.cost)) mt rest).1, t1, .pending) :=
          Prod.ext rfl hsnd
        have hstep := ih hrest
        show (resultToMatch v :: (runMatches (jsub t (Rat.ceil f.cost)) mt (rest ++ s2)).1,
              (runMatches (jsub t (Rat.ceil f.cost)) mt (rest ++ s2)).2) =
            (ms ++ (runMatches t1 mt s2).1, (runMatches t1 mt s2).2)
        rw [hstep, ← hms]
        simp

/-- The successive values of the timeout variable along a run: its value at
each started step, then its final value. -/
def budgetList (t mt : JsNum) (steps : List (Comp IterResult)) : List JsNum :=
  (stepLog t mt steps).map Prod.fst ++ [(runMatches t mt steps).2.1]

theorem budgetList_head (t mt : JsNum) (steps : List (Comp IterResult)) :
    (budgetList t mt steps).head? = some t := by
  cases steps with
  | nil => rfl
  | cons f rest =>
    rw [budgetList, stepLog]
    simp

theorem stepDeadline_none_iff (t mt : JsNum) :
    stepDeadline t mt = none ↔ t = .inf ∧ mt = .inf := by
  rw [stepDeadline]
  by_cases h : t ≠ JsNum.inf ∨ mt ≠ JsNum.inf
  · simp only [h, if_true]
    constructor
    · intro hc; exact absurd hc (by simp)
    · intro ⟨h1, h2⟩; subst h1; subst h2; simp at h
  · simp only [h, if_false]
    push_neg at h
    simp [h.1, h.2]

theorem stepDeadline_eq_min {t mt : JsNum} (h : t ≠ .inf ∨ mt ≠ .inf) :
    stepDeadline t mt = some (jmin t mt) := by
  rw [stepDeadline, if_pos h]

/-- Each entry of the step trace records exactly the deadline that the run
computes from the recorded remaining budget. -/
theorem stepLog_deadline (t mt : JsNum) (steps : List (Comp IterResult)) :
    ∀ p ∈ stepLog t mt steps, p.2 = stepDeadline p.1 mt := by
  induction steps generalizing t with
  | nil => intro p hp; simp [stepLog] at hp
  | cons f rest ih =>
    intro p hp
    rw [stepLog] at hp
    rcases List.mem_cons.mp hp with h | h
    · subst h; rfl
    · cases hft : functionTimeout f (stepDeadline t mt) with
      | ok r =>
        cases r with
        | step v =>
          rw [hft] at h
          exact ih _ p h
        | done => rw [hft] at h; simp at h
      | thrown e => rw [hft] at h; simp at h
      | hangs => rw [hft] at h; simp at h

/-- An unbounded timeout variable stays unbounded at every started step. -/
theorem stepLog_inf (mt : JsNum) (steps : List (Comp IterResult)) :
    ∀ p ∈ stepLog .inf mt steps, p.1 = .inf := by
  induction steps with
  | nil => intro p hp; simp [stepLog] at hp
  | cons f rest ih =>
    intro p hp
    rw [stepLog] at hp
    rcases List.mem_cons.mp hp with h | h
    · subst h; rfl
    · cases hft : functionTimeout f (stepDeadline .inf mt) with
      | ok r =>
        cases r with
        | step v =>
          rw [hft] at h
          rw [jsub_inf] at h
          exact ih p h
        | done => rw [hft] at h; simp at h
      | thrown e => rw [hft] at h; simp at h
      | hangs => rw [hft] at h; simp at h

/-- An unbounded timeout variable is still unbounded when the run ends. -/
theorem runMatches_inf_budget (mt : JsNum) (steps : List (Comp IterResult)) :
    (runMatches .inf mt steps).2.1 = .inf := by
  induction steps with
  | nil => rfl
  | cons f rest ih =>
    rw [runMatches]
    cases hft : functionTimeout f (stepDeadline .inf mt) with
    | ok r =>
      cases r with
      | step v => simpa [jsub_inf] using ih
      | done => simp [jsub_inf]
    | thrown e => by_cases he : isTimeoutError e = true <;> simp [he]
    | hangs => simp

/-- The final value of the timeout variable is the initial value minus the
total charged against it. -/
theorem runMatches_budget_eq (t mt : JsNum) (steps : List (Comp IterResult)) :
    (runMatches t mt steps).2.1 = jsub t (consumed t mt steps) := by
  induction steps generalizing t with
  | nil => rw [runMatches_nil, consumed, jsub_zero]
  | cons f rest ih =>
    rw [runMatches, consumed]
    cases hft : functionTimeout f (stepDeadline t mt) with
    | ok r =>
      cases r with
      | step v => simp only; rw [ih, jsub_jsub]
      | done => simp only
    | thrown e =>
      by_cases he : isTimeoutError e = true <;> simp [he, jsub_zero]
    | hangs => simp [jsub_zero]

theorem jleB_refl (t : JsNum) : jleB t t = true := by
  cases t <;> simp [jleB]

/-- With nonnegative step costs the timeout variable never increases along
a run. -/
theorem budgetList_chain (t mt : JsNum) (steps : List (Comp IterResult))
    (h : ∀ f ∈ steps, 0 ≤ f.cost) :
    List.Chain' (fun a b => jleB b a = true) (budgetList t mt steps) := by
  induction steps generalizing t with
  | nil => simp [budgetList, stepLog, runMatches_nil]
  | cons f rest ih =>
    have hf : 0 ≤ Rat.ceil f.cost := ratCeil_nonneg (h f (by simp))
    have hr : ∀ g ∈ rest, 0 ≤ g.cost := fun g hg => h g (List.mem_cons_of_mem f hg)
    rw [budgetList, stepLog, runMatches]
    cases hft : functionTimeout f (stepDeadline t mt) with
    | hangs => simp [jleB_refl]
    | thrown e =>
      by_cases he : isTimeoutError e = true <;> simp [he, jleB_refl]
    | ok r =>
      cases r with
      | done => simp [jleB_jsub_self hf]
      | step v =>
        simp only [List.map_cons, List.cons_append]
        rw [List.chain'_cons']
        constructor
        · intro y hy
          have hhead := budgetList_head (jsub t (Rat.ceil f.cost)) mt rest
          rw [budgetList] at hhead
          rw [hhead] at hy
          simp only [Option.mem_def, Option.some.injEq] at hy
          subst hy
          exact jleB_jsub_self hf
        · exact ih (jsub t (Rat.ceil f.cost)) hr

theorem functionTimeout_timeoutErr {α : Type} {f : Comp α} {T : ℚ}
    (h : T < f.cost) : functionTimeout f (some (.fin T)) = .thrown vmTimeoutError := by
  cases hact : f.act <;> simp [functionTimeout, hact, h]

theorem isTimeoutError_vm : isTimeoutError vmTimeoutError = true := rfl

/-- Once the timeout variable is a finite value at most zero, the run still
starts the next guarded step, whose deadline is then at most zero, so any
step of positive cost throws the timeout error and the run ends there with
no further matches. -/
theorem runMatches_zero_budget {t mt : JsNum} {pre : List (Comp IterResult)}
    {ms : List Match} {q : ℚ} (hpre : runMatches t mt pre = (ms, .fin q, .pending))
    (hq : q ≤ 0) (f : Comp IterResult) (hf : 0 < f.cost)
    (rest : List (Comp IterResult)) :
    runMatches t mt (pre ++ f :: rest) = (ms, .fin q, .timedOut) := by
  rw [runMatches_append (f :: rest) hpre]
  have hnext : runMatches (.fin q) mt (f :: rest) = ([], .fin q, .timedOut) := by
    rw [runMatches]
    have hd : stepDeadline (.fin q) mt = some (jmin (.fin q) mt) :=
      stepDeadline_eq_min (Or.inl (by simp))
    rw [hd]
    cases mt with
    | inf =>
      rw [show jmin (.fin q) .inf = .fin q from rfl]
      rw [functionTimeout_timeoutErr (lt_of_le_of_lt hq hf)]
      simp [isTimeoutError_vm]
    | fin m =>
      rw [show jmin (.fin q) (.fin m) = .fin (min q m) from rfl]
      have : min q m < f.cost := lt_of_le_of_lt (le_trans (min_le_left q m) hq) hf
      rw [functionTimeout_timeoutErr this]
      simp [isTimeoutError_vm]
  rw [hnext]
  simp

/-- With both budgets unbounded, the iteration is transparent: it yields
exactly the cursor's results, converted by resultToMatch, ends by
exhaustion, and the budget stays unbounded. -/
theorem runMatches_inf_scan (cost : ℕ → ℚ) (i : ℕ) (rs : List RawResult) :
    runMatches .inf .inf (stepsOfScan cost i rs) = (rs.map resultToMatch, .inf, .exhausted) := by
  induction rs generalizing i with
  | nil =>
    rw [stepsOfScan, runMatches]
    simp [stepDeadline, functionTimeout, jsub_inf, runMatches_nil]
  | cons r rs ih =>
    rw [stepsOfScan, runMatches]
    simp only [stepDeadline, functionTimeout]
    simp only [ne_eq, not_true_eq_false, or_self, if_false]
    rw [jsub_inf]
    rw [ih (i + 1)]
    simp

/-- The cursor sequence of matchAll is exactly the spec's plain exhaustive
forward scan. -/
theorem cursorSeq_eq_plainScan (E : Engine) (s : String) :
    ∀ fuel pos, cursorSeq E s fuel pos = plainScan E s fuel pos := by
  intro fuel
  induction fuel with
  | zero => intro pos; rfl
  | succ n ih =>
    intro pos
    rw [cursorSeq, plainScan]
    cases hE : E s pos with
    | none => rfl
    | some r =>
      show r :: cursorSeq E s n (nextScanPos r) =
        r :: plainScan E s n (r.index + max r.elem0.length 1)
      rw [ih, nextScanPos]

/-- Every result of a scan from a position lies at or after that
position. -/
theorem plainScan_index_ge {E : Engine} {s : String} (hwf : EngineWf E) :
    ∀ fuel pos r, r ∈ plainScan E s fuel pos → pos ≤ r.index := by
  intro fuel
  induction fuel with
  | zero => intro pos r hr; simp [plainScan] at hr
  | succ n ih =>
    intro pos r hr
    rw [plainScan] at hr
    cases hE : E s pos with
    | none => rw [hE] at hr; simp at hr
    | some r0 =>
      rw [hE] at hr
      rcases List.mem_cons.mp hr with h | h
      · subst h; exact hwf s pos r hE
      · have h1 := ih _ r h
        have h0 := hwf s pos r0 hE
        have h2 : 1 ≤ max r0.elem0.length 1 := le_max_right _ _
        omega

/-- The scan's start indices are strictly increasing. -/
theorem plainScan_chain {E : Engine} {s : String} (hwf : EngineWf E) :
    ∀ fuel pos, List.Chain' (fun a b => a.index < b.index) (plainScan E s fuel pos) := by
  intro fuel
  induction fuel with
  | zero => intro pos; simp [plainScan]
  | succ n ih =>
    intro pos
    rw [plainScan]
    cases hE : E s pos with
    | none => simp
    | some r0 =>
      rw [List.chain'_cons']
      refine ⟨?_, ih _⟩
      intro y hy
      have hym : y ∈ plainScan E s n (r0.index + max r0.elem0.length 1) :=
        List.mem_of_mem_head? hy
      have h1 := plainScan_index_ge hwf n _ y hym
      have h2 : 1 ≤ max r0.elem0.length 1 := le_max_right _ _
      omega

theorem firstDigitRun_ge : ∀ (cs : List Char) (i j : ℕ) (run : List Char),
    firstDigitRun cs i = some (j, run) → i ≤ j := by
  intro cs
  induction cs with
  | nil => intro i j run h; simp [firstDigitRun] at h
  | cons c cs ih =>
    intro i j run h
    rw [firstDigitRun] at h
    by_cases hc : isDigitChar c = true
    · rw [if_pos hc] at h
      simp at h
      omega
    · rw [if_neg hc] at h
      have := ih (i + 1) j run h
      omega

theorem digitEngine_wf : EngineWf digitEngine := by
  intro s p r h
  rw [digitEngine] at h
  cases hE : firstDigitRun (s.data.drop p) p with
  | none => rw [hE] at h; simp at h
  | some pr =>
    obtain ⟨i, run⟩ := pr
    rw [hE] at h
    simp only [Option.some.injEq] at h
    have := firstDigitRun_ge _ p i run hE
    rw [← h]
    exact this

/-- Costs are charged as nonnegative whole milliseconds. -/
theorem consumed_nonneg (t mt : JsNum) (steps : List (Comp IterResult))
    (h : ∀ f ∈ steps, 0 ≤ f.cost) : 0 ≤ consumed t mt steps := by
  induction steps generalizing t with
  | nil => simp [consumed]
  | cons f rest ih =>
    rw [consumed]
    have hf : 0 ≤ Rat.ceil f.cost := ratCeil_nonneg (h f (by simp))
    have hr : ∀ g ∈ rest, 0 ≤ g.cost := fun g hg => h g (List.mem_cons_of_mem f hg)
    cases hft : functionTimeout f (stepDeadline t mt) with
    | ok r =>
      cases r with
      | step v =>
        simp only
        have := ih (jsub t (Rat.ceil f.cost)) hr
        omega
      | done => simpa using hf
    | thrown e => by_cases he : isTimeoutError e = true <;> simp [he]
    | hangs => simp

theorem jltB_fin {a b : ℚ} (h : a < b) : jltB (.fin a) (.fin b) = true := by
  rw [jltB, jleB]
  simp only [Bool.and_eq_true, decide_eq_true_eq, Bool.not_eq_true']
  exact ⟨le_of_lt h, by simp [ne_of_lt h]⟩

/-! Claim theorems. -/

/-- Claim C5: for every regex without the global flag, matches raises the
usage error synchronously at call time: the entry returns the error and no
iterable (and hence no iteration and no regex evaluation, which only the
iterable's iterator performs) is produced; the error is not a timeout
error, and its message instructs the caller to use firstMatch instead. -/
theorem matches_requires_global_flag (r : Regexp) (t mt : JsNum)
    (h : r.global = false) :
    «matches» r t mt = .error matchesUsageError ∧
      isTimeoutError matchesUsageError = false ∧
      "firstMatch()".data <:+: matchesUsageError.message.data := by
  refine ⟨?_, rfl, ?_⟩
  · rw [«matches», if_pos h]
  · decide

/-- Claim C5 witness at a concrete non-global regex. -/
theorem matches_requires_global_flag_witness :
    «matches» ⟨"x+", false, false, 0⟩ .inf .inf = .error matchesUsageError ∧
      isTimeoutError matchesUsageError = false ∧
      "firstMatch()".data <:+: matchesUsageError.message.data :=
  matches_requires_global_flag ⟨"x+", false, false, 0⟩ .inf .inf rfl

/-- Claim C7: isMatch returns the boolean of testing a structured clone of
the regex against the string whenever the guarded test completes within the
deadline (or there is none); a deadline breach or divergence under a
deadline is caught internally and mapped to false; a thrown error that is
not a timeout error propagates unchanged. -/
theorem isMatch_contract :
    (∀ (E : TestEngine) (r : Regexp) (s : String) (c : ℚ),
      isMatchRun E r s c none = .ret (testOnClone E r s)) ∧
    (∀ (E : TestEngine) (r : Regexp) (s : String) (c T : ℚ), c ≤ T →
      isMatchRun E r s c (some (.fin T)) = .ret (testOnClone E r s)) ∧
    (∀ (E : TestEngine) (r : Regexp) (s : String) (c T : ℚ), T < c →
      isMatchRun E r s c (some (.fin T)) = .ret false) ∧
    (∀ c T : ℚ, isMatch ⟨c, .diverge⟩ (some (.fin T)) = .ret false) ∧
    (∀ (c T : ℚ) (e : JsError), c ≤ T → isTimeoutError e = false →
      isMatch ⟨c, .throwErr e⟩ (some (.fin T)) = .thrown e) := by
  refine ⟨?_, ?_, ?_, ?_, ?_⟩
  · intro E r s c; rfl
  · intro E r s c T h
    simp [isMatchRun, isMatch, functionTimeout, not_lt.2 h]
  · intro E r s c T h
    simp [isMatchRun, isMatch, functionTimeout, h, isTimeoutError_vm]
  · intro c T
    simp [isMatch, functionTimeout, isTimeoutError_vm]
  · intro c T e h he
    simp [isMatch, functionTimeout, not_lt.2 h, he]

/-- Claim C7 witness on a concrete engine, regex and deadlines. -/
theorem isMatch_contract_witness :
    isMatchRun (fun _ _ => (true, 7)) ⟨"a", true, false, 3⟩ "s" 1 (some (.fin 2)) =
        .ret (testOnClone (fun _ _ => (true, 7)) ⟨"a", true, false, 3⟩ "s") ∧
      isMatchRun (fun _ _ => (true, 7)) ⟨"a", true, false, 3⟩ "s" 9 (some (.fin 2)) =
        .ret false ∧
      isMatch ⟨1, .throwErr ⟨some "E", "boom"⟩⟩ (some (.fin 2)) =
        .thrown ⟨some "E", "boom"⟩ :=
  ⟨isMatch_contract.2.1 (fun _ _ => (true, 7)) ⟨"a", true, false, 3⟩ "s" 1 2 (by decide),
   isMatch_contract.2.2.1 (fun _ _ => (true, 7)) ⟨"a", true, false, 3⟩ "s" 9 2 (by decide),
   isMatch_contract.2.2.2.2 1 2 ⟨some "E", "boom"⟩ (by decide) (by decide)⟩

/-- Claim C8: firstMatch returns the absent marker both when the guarded
exec completes with no match and when the attempt breaches the deadline (or
diverges under one); on a match it returns the MatchResult with the matched
substring, start index, ordered possibly-absent unnamed captures, the
named-group mapping (empty when the engine defines none) and the subject;
a non-timeout error propagates. -/
theorem firstMatch_contract :
    (∀ c : ℚ, firstMatch ⟨c, .ret none⟩ none = .ret none) ∧
    (∀ c T : ℚ, c ≤ T → firstMatch ⟨c, .ret none⟩ (some (.fin T)) = .ret none) ∧
    (∀ (c T : ℚ) (res : Option RawResult), T < c →
      firstMatch ⟨c, .ret res⟩ (some (.fin T)) = .ret none) ∧
    (∀ c T : ℚ,
      firstMatch (⟨c, .diverge⟩ : Comp (Option RawResult)) (some (.fin T)) = .ret none) ∧
    (∀ (c : ℚ) (r : RawResult), firstMatch ⟨c, .ret (some r)⟩ none =
      .ret (some { matched := r.elem0, index := r.index, groups := r.rest,
                   namedGroups := r.groups.getD [], input := r.input })) ∧
    (∀ (c T : ℚ) (r : RawResult), c ≤ T →
      firstMatch ⟨c, .ret (some r)⟩ (some (.fin T)) = .ret (some (resultToMatch r))) ∧
    (∀ (c T : ℚ) (e : JsError), c ≤ T → isTimeoutError e = false →
      firstMatch (⟨c, .throwErr e⟩ : Comp (Option RawResult)) (some (.fin T)) =
        .thrown e) := by
  refine ⟨?_, ?_, ?_, ?_, ?_, ?_, ?_⟩
  · intro c; rfl
  · intro c T h; simp [firstMatch, functionTimeout, not_lt.2 h]
  · intro c T res h
    simp [firstMatch, functionTimeout, h, isTimeoutError_vm]
  · intro c T; simp [firstMatch, functionTimeout, isTimeoutError_vm]
  · intro c r; rfl
  · intro c T r h; simp [firstMatch, functionTimeout, not_lt.2 h]
  · intro c T e h he; simp [firstMatch, functionTimeout, not_lt.2 h, he]

/-- Claim C8 witness on concrete computations. -/
theorem firstMatch_contract_witness :
    firstMatch ⟨1, .ret none⟩ (some (.fin 2)) = .ret none ∧
      firstMatch ⟨9, .ret (some ⟨"ab", 3, [some "a", none], some [("g", "b")], "zzabz"⟩)⟩
        (some (.fin 2)) = .ret none ∧
      firstMatch ⟨1, .ret (some ⟨"ab", 3, [some "a", none], some [("g", "b")], "zzabz"⟩)⟩
        (some (.fin 2)) =
        .ret (some ⟨"ab", 3, [some "a", none], [("g", "b")], "zzabz"⟩) ∧
      firstMatch (⟨1, .throwErr ⟨none, "engine fault"⟩⟩ : Comp (Option RawResult))
        (some (.fin 2)) = .thrown ⟨none, "engine fault"⟩ :=
  ⟨firstMatch_contract.2.1 1 2 (by decide),
   firstMatch_contract.2.2.1 9 2 (some ⟨"ab", 3, [some "a", none], some [("g", "b")], "zzabz"⟩)
     (by decide),
   firstMatch_contract.2.2.2.2.2.1 1 2 ⟨"ab", 3, [some "a", none], some [("g", "b")], "zzabz"⟩
     (by decide),
   firstMatch_contract.2.2.2.2.2.2 1 2 ⟨none, "engine fault"⟩ (by decide) (by decide)⟩

/-- Claim C9: isMatch leaves the caller's regex object untouched (the test
runs on the structured clone, which preserves source and flags but starts
with scan position zero), its answer does not depend on the caller's
lastIndex, and two calls on the same regex give the same results in either
order. -/
theorem isMatch_no_mutation :
    (∀ (E : TestEngine) (r : Regexp) (s : String) (c : ℚ) (t : Option JsNum),
      (isMatchCall E r s c t).2 = r) ∧
    (∀ r : Regexp, (structuredClone r).source = r.source ∧
      (structuredClone r).global = r.global ∧ (structuredClone r).sticky = r.sticky ∧
      (structuredClone r).lastIndex = 0) ∧
    (∀ (E : TestEngine) (r : Regexp) (s : String) (c : ℚ) (t : Option JsNum) (n m : ℕ),
      isMatchRun E { r with lastIndex := n } s c t =
        isMatchRun E { r with lastIndex := m } s c t) ∧
    (∀ (E : TestEngine) (r : Regexp) (s1 s2 : String) (c1 c2 : ℚ) (t : Option JsNum),
      (isMatchCall E r s1 c1 t).1 =
          (isMatchCall E (isMatchCall E r s2 c2 t).2 s1 c1 t).1 ∧
        (isMatchCall E r s2 c2 t).1 =
          (isMatchCall E (isMatchCall E r s1 c1 t).2 s2 c2 t).1) := by
  refine ⟨fun E r s c t => rfl, fun r => ⟨rfl, rfl, rfl, rfl⟩, ?_, ?_⟩
  · intro E r s c t n m; rfl
  · intro E r s1 s2 c1 c2 t; exact ⟨rfl, rfl⟩

/-- Claim C4 counterexample: a guarded closure that itself throws an error
carrying the timeout code within the deadline: the error propagates
unchanged, yet isTimeoutError returns true on it, so the predicate does not
return false for this non-timeout failure and the two failure kinds are not
distinguishable by it. -/
theorem functionTimeout_duck_typing_counterexample :
    functionTimeout
        (⟨0, .throwErr ⟨some "ERR_SCRIPT_EXECUTION_TIMEOUT", "fake"⟩⟩ : Comp Bool)
        (some (.fin 10)) = .thrown ⟨some "ERR_SCRIPT_EXECUTION_TIMEOUT", "fake"⟩ ∧
      isTimeoutError ⟨some "ERR_SCRIPT_EXECUTION_TIMEOUT", "fake"⟩ = true := by
  constructor <;> decide

/-- Claim C4 amended: the wrapper returns the closure's result unchanged on
completion within the deadline (or with none set); a breach (cost above the
deadline, or divergence) throws the timeout error, on which isTimeoutError
returns true; a closure's own thrown error within the deadline propagates
unchanged, and isTimeoutError returns false on it provided its code
property is not the timeout code (the predicate is duck-typed on the code
property, so an error forging that code is classified as a timeout). -/
theorem functionTimeout_contract :
    (∀ (α : Type) (v : α) (c : ℚ), functionTimeout ⟨c, .ret v⟩ none = .ok v) ∧
    (∀ (α : Type) (v : α) (c T : ℚ), c ≤ T →
      functionTimeout ⟨c, .ret v⟩ (some (.fin T)) = .ok v) ∧
    (∀ (α : Type) (f : Comp α) (T : ℚ), T < f.cost →
      functionTimeout f (some (.fin T)) = .thrown vmTimeoutError) ∧
    (∀ (α : Type) (c T : ℚ),
      functionTimeout (⟨c, .diverge⟩ : Comp α) (some (.fin T)) = .thrown vmTimeoutError) ∧
    isTimeoutError vmTimeoutError = true ∧
    (∀ (α : Type) (e : JsError) (c : ℚ),
      functionTimeout (⟨c, .throwErr e⟩ : Comp α) none = .thrown e) ∧
    (∀ (α : Type) (e : JsError) (c T : ℚ), c ≤ T →
      functionTimeout (⟨c, .throwErr e⟩ : Comp α) (some (.fin T)) = .thrown e) ∧
    (∀ e : JsError, e.code ≠ some timeoutErrorCode → isTimeoutError e = false) := by
  refine ⟨?_, ?_, ?_, ?_, rfl, ?_, ?_, ?_⟩
  · intro α v c; rfl
  · intro α v c T h; simp [functionTimeout, not_lt.2 h]
  · intro α f T h; exact functionTimeout_timeoutErr h
  · intro α c T; rfl
  · intro α e c; rfl
  · intro α e c T h; simp [functionTimeout, not_lt.2 h]
  · intro e h; simpa [isTimeoutError] using h

/-- Claim C4 witness at concrete closures and deadlines. -/
theorem functionTimeout_contract_witness :
    functionTimeout (⟨1, .ret (42 : ℕ)⟩ : Comp ℕ) (some (.fin 2)) = .ok 42 ∧
      functionTimeout (⟨9, .ret (42 : ℕ)⟩ : Comp ℕ) (some (.fin 2)) =
        .thrown vmTimeoutError ∧
      functionTimeout (⟨1, .throwErr ⟨none, "boom"⟩⟩ : Comp ℕ) (some (.fin 2)) =
        .thrown ⟨none, "boom"⟩ ∧
      isTimeoutError ⟨none, "boom"⟩ = false :=
  ⟨functionTimeout_contract.2.1 ℕ 42 1 2 (by decide),
   functionTimeout_contract.2.2.1 ℕ ⟨9, .ret 42⟩ 2 (by decide),
   functionTimeout_contract.2.2.2.2.2.2.1 ℕ ⟨none, "boom"⟩ 1 2 (by decide),
   functionTimeout_contract.2.2.2.2.2.2.2 ⟨none, "boom"⟩ (by decide)⟩

/-- Claim C1: at every started step of a run the deadline handed to the
executor is computed from that step's remaining budget exactly as the
source writes it: it is absent precisely when both the remaining budget and
matchTimeout are the unbounded sentinel, and otherwise it is
min(remaining, matchTimeout); the budget update subtracts the elapsed time
rounded up to whole milliseconds from a finite remaining value, while an
unbounded remaining budget is never decremented (the sentinel is absorbing)
and stays unbounded at every step of the run and at its end. -/
theorem matches_step_deadline_and_budget :
    (∀ t mt : JsNum, stepDeadline t mt = none ↔ t = .inf ∧ mt = .inf) ∧
    (∀ t mt : JsNum, (t ≠ .inf ∨ mt ≠ .inf) → stepDeadline t mt = some (jmin t mt)) ∧
    (∀ (t mt : JsNum) (steps : List (Comp IterResult)) (p : JsNum × Option JsNum),
      p ∈ stepLog t mt steps → p.2 = stepDeadline p.1 mt) ∧
    (∀ (q : ℚ) (d : ℤ), jsub (.fin q) d = .fin (q - (d : ℚ))) ∧
    (∀ d : ℤ, jsub .inf d = .inf) ∧
    (∀ (mt : JsNum) (steps : List (Comp IterResult)) (p : JsNum × Option JsNum),
      p ∈ stepLog .inf mt steps → p.1 = .inf) ∧
    (∀ (mt : JsNum) (steps : List (Comp IterResult)),
      (runMatches .inf mt steps).2.1 = .inf) :=
  ⟨stepDeadline_none_iff, fun _ _ h => stepDeadline_eq_min h,
   fun t mt steps p hp => stepLog_deadline t mt steps p hp,
   jsub_fin, jsub_inf,
   fun mt steps p hp => stepLog_inf mt steps p hp,
   runMatches_inf_budget⟩

/-- Claim C1 witness at a concrete finite budget and a concrete unbounded
run. -/
theorem matches_step_deadline_and_budget_witness :
    stepDeadline (.fin 5) (.fin 3) = some (jmin (.fin 5) (.fin 3)) ∧
      ((JsNum.fin 5, some (JsNum.fin 3)) : JsNum × Option JsNum).2 =
        stepDeadline ((JsNum.fin 5, some (JsNum.fin 3)) : JsNum × Option JsNum).1 (.fin 3) ∧
      ((JsNum.inf, (none : Option JsNum)) : JsNum × Option JsNum).1 = .inf :=
  ⟨matches_step_deadline_and_budget.2.1 (.fin 5) (.fin 3) (Or.inl (by decide)),
   matches_step_deadline_and_budget.2.2.1 (.fin 5) (.fin 3)
     [⟨1, .ret .done⟩] (JsNum.fin 5, some (JsNum.fin 3)) (by decide),
   matches_step_deadline_and_budget.2.2.2.2.2.1 .inf
     [⟨1, .ret .done⟩] (JsNum.inf, (none : Option JsNum)) (by decide)⟩

/-- Claim C2 counterexample: with timeout 5 and matchTimeout unbounded, a
first step of cost 5 completes and leaves the remaining budget exactly
zero with the cursor not exhausted; the run then starts a second
deadline-guarded step — the step trace has a second entry, with remaining
budget zero and effective deadline zero — contradicting that the sequence
ends before attempting another step once the budget reaches zero. -/
theorem matches_zero_budget_counterexample :
    stepLog (.fin 5) .inf
        [⟨5, .ret (.step ⟨"x", 0, [], none, "x"⟩)⟩, ⟨1, .ret .done⟩] =
      [(.fin 5, some (.fin 5)), (.fin 0, some (.fin 0))] ∧
    (runMatches (.fin 5) .inf
        [⟨5, .ret (.step ⟨"x", 0, [], none, "x"⟩)⟩, ⟨1, .ret .done⟩]).2.2 = .timedOut := by
  constructor <;> decide

/-- Claim C2 amended: with nonnegative step costs the remaining budget is
monotonically non-increasing across steps; once it is a finite value at
most zero with the cursor unexhausted, the run still starts one more
guarded step, whose deadline is then at most zero, so any positive-cost
step throws the timeout error, which is caught: the sequence ends there
with no further matches and without raising; and because the code never
clamps, the remaining budget can end negative when the configured timeout
is not a whole number. -/
theorem matches_budget_monotone :
    (∀ (t mt : JsNum) (steps : List (Comp IterResult)), (∀ f ∈ steps, 0 ≤ f.cost) →
      List.Chain' (fun a b => jleB b a = true) (budgetList t mt steps)) ∧
    (∀ {t mt : JsNum} {pre : List (Comp IterResult)} {ms : List Match} {q : ℚ},
      runMatches t mt pre = (ms, .fin q, .pending) → q ≤ 0 →
      ∀ f : Comp IterResult, 0 < f.cost → ∀ rest : List (Comp IterResult),
        runMatches t mt (pre ++ f :: rest) = (ms, .fin q, .timedOut)) ∧
    (runMatches (.fin (mkRat 1 2)) .inf
        [⟨mkRat 1 2, .ret (.step ⟨"x", 0, [], none, "x"⟩)⟩]).2.1 = .fin (mkRat (-1) 2) := by
  refine ⟨budgetList_chain, ?_, by decide⟩
  intro t mt pre ms q hpre hq f hf rest
  exact runMatches_zero_budget hpre hq f hf rest

/-- Claim C2 witness: the monotone chain on a concrete run, and the
zero-budget termination after a concrete budget-exhausting step. -/
theorem matches_budget_monotone_witness :
    List.Chain' (fun a b => jleB b a = true)
        (budgetList (.fin 5) .inf
          [⟨5, .ret (.step ⟨"x", 0, [], none, "x"⟩)⟩, ⟨1, .ret .done⟩]) ∧
      runMatches (.fin 5) .inf
          ([⟨5, .ret (.step ⟨"x", 0, [], none, "x"⟩)⟩] ++ [⟨1, .ret .done⟩]) =
        ([⟨"x", 0, [], [], "x"⟩], .fin 0, .timedOut) :=
  ⟨matches_budget_monotone.1 (.fin 5) .inf
      [⟨5, .ret (.step ⟨"x", 0, [], none, "x"⟩)⟩, ⟨1, .ret .done⟩] (by decide),
   matches_budget_monotone.2.1
      (by decide :
        runMatches (.fin 5) .inf [⟨5, .ret (.step ⟨"x", 0, [], none, "x"⟩)⟩] =
          ([⟨"x", 0, [], [], "x"⟩], .fin 0, .pending))
      (by decide) ⟨1, .ret .done⟩ (by decide) []⟩

/-- Claim C3: when the next guarded step of a still-pending run throws, the
run ends at that point: the matches already yielded are kept, no further
matches are produced, the budget is not charged for the throwing step, and
the end is normal when the thrown error satisfies isTimeoutError (the
error of either the per-step deadline or the cumulative budget), while any
other error terminates the sequence by propagating. -/
theorem matches_error_handling {t mt : JsNum} {pre : List (Comp IterResult)}
    {ms : List Match} {t1 : JsNum} (hpre : runMatches t mt pre = (ms, t1, .pending))
    {f : Comp IterResult} {e : JsError}
    (hf : functionTimeout f (stepDeadline t1 mt) = .thrown e)
    (rest : List (Comp IterResult)) :
    runMatches t mt (pre ++ f :: rest) =
      (ms, t1, if isTimeoutError e then .timedOut else .errored e) := by
  rw [runMatches_append (f :: rest) hpre]
  rw [runMatches, hf]
  by_cases he : isTimeoutError e = true <;> simp [he]

/-- Claim C3 witness: after one yielded match, a timing-out step ends the
sequence normally, and an engine fault instead ends it with that error. -/
theorem matches_error_handling_witness :
    runMatches (.fin 5) .inf
        ([⟨1, .ret (.step ⟨"x", 0, [], none, "x"⟩)⟩] ++ [⟨9, .ret .done⟩]) =
      ([⟨"x", 0, [], [], "x"⟩], .fin 4,
        if isTimeoutError vmTimeoutError then .timedOut else .errored vmTimeoutError) ∧
    runMatches (.fin 5) .inf
        ([⟨1, .ret (.step ⟨"x", 0, [], none, "x"⟩)⟩] ++ [⟨1, .throwErr ⟨none, "boom"⟩⟩]) =
      ([⟨"x", 0, [], [], "x"⟩], .fin 4,
        if isTimeoutError ⟨none, "boom"⟩ then .timedOut else .errored ⟨none, "boom"⟩) :=
  ⟨matches_error_handling
      (by decide :
        runMatches (.fin 5) .inf [⟨1, .ret (.step ⟨"x", 0, [], none, "x"⟩)⟩] =
          ([⟨"x", 0, [], [], "x"⟩], .fin 4, .pending))
      (by decide) [],
   matches_error_handling
      (by decide :
        runMatches (.fin 5) .inf [⟨1, .ret (.step ⟨"x", 0, [], none, "x"⟩)⟩] =
          ([⟨"x", 0, [], [], "x"⟩], .fin 4, .pending))
      (by decide) []⟩

/-- Claim C6 counterexample: on the cited scenario the pattern of one or
more digits over the subject yields matches starting at 1, 4 and 8: the
second and third indices claimed (5 and 9) are off by one, since the
subject has "22" starting at index 4 and "333" at index 8. -/
theorem matches_scan_scenario_counterexample :
    ((runMatches .inf .inf
        (stepsOfScan (fun _ => 1) 0 (cursorSeq digitEngine "a1 b22 c333" 12 0))).1.map
      Match.index = [1, 4, 8]) ∧
    ¬((runMatches .inf .inf
        (stepsOfScan (fun _ => 1) 0 (cursorSeq digitEngine "a1 b22 c333" 12 0))).1.map
      Match.index = [1, 5, 9]) := by
  constructor <;> decide

/-- Claim C6 amended: with unbounded budgets, matches over the cursor of a
global pattern yields exactly the plain exhaustive forward scan of that
pattern over the string, converted match for match (index, matched text,
captures and named groups all equal), ending by exhaustion; for a
well-formed engine the start indices are strictly increasing; and on the
concrete scenario the three matches are "1" at index 1, "22" at index 4
and "333" at index 8 (not 5 and 9 as the spec cites). -/
theorem matches_refines_plain_scan :
    (∀ (E : Engine) (s : String) (cost : ℕ → ℚ) (fuel pos : ℕ),
      runMatches .inf .inf (stepsOfScan cost 0 (cursorSeq E s fuel pos)) =
        ((plainScan E s fuel pos).map resultToMatch, .inf, .exhausted)) ∧
    (∀ (E : Engine) (s : String), EngineWf E → ∀ fuel pos : ℕ,
      List.Chain' (fun a b => a.index < b.index) (plainScan E s fuel pos)) ∧
    ((runMatches .inf .inf
        (stepsOfScan (fun _ => 1) 0 (cursorSeq digitEngine "a1 b22 c333" 12 0))).1 =
      [⟨"1", 1, [], [], "a1 b22 c333"⟩, ⟨"22", 4, [], [], "a1 b22 c333"⟩,
       ⟨"333", 8, [], [], "a1 b22 c333"⟩]) := by
  refine ⟨?_, ?_, by decide⟩
  · intro E s cost fuel pos
    rw [cursorSeq_eq_plainScan]
    exact runMatches_inf_scan cost 0 (plainScan E s fuel pos)
  · intro E s hwf fuel pos
    exact plainScan_chain hwf fuel pos

/-- Claim C6 witness: the refinement and the strict index ordering at the
concrete digit engine and subject. -/
theorem matches_refines_plain_scan_witness :
    runMatches .inf .inf
        (stepsOfScan (fun _ => 1) 0 (cursorSeq digitEngine "a1 b22 c333" 12 0)) =
      ((plainScan digitEngine "a1 b22 c333" 12 0).map resultToMatch, .inf, .exhausted) ∧
    List.Chain' (fun a b => a.index < b.index)
      (plainScan digitEngine "a1 b22 c333" 12 0) :=
  ⟨matches_refines_plain_scan.1 digitEngine "a1 b22 c333" (fun _ => 1) 12 0,
   matches_refines_plain_scan.2.1 digitEngine "a1 b22 c333" digitEngine_wf 12 0⟩

/-- Claim C10: the iterable's iterator can be taken more than once; the
generator reruns with a fresh cursor environment but the single timeout
variable of the matches call: the second drain behaves exactly as a run
started from the first drain's final budget, which is the initial budget
minus the total milliseconds the first drain consumed, so with a finite
timeout any positive consumption leaves every later iteration a strictly
smaller remaining budget instead of restarting from the original value. -/
theorem matches_shared_budget :
    (∀ (t mt : JsNum) (s1 s2 : List (Comp IterResult)),
      drainTwice t mt s1 s2 =
        ((runMatches t mt s1).1,
         (runMatches (jsub t (consumed t mt s1)) mt s2).1,
         (runMatches (jsub t (consumed t mt s1)) mt s2).2.1)) ∧
    (∀ (q : ℚ) (mt : JsNum) (s1 : List (Comp IterResult)),
      (runMatches (.fin q) mt s1).2.1 =
        .fin (q - (consumed (.fin q) mt s1 : ℚ))) ∧
    (∀ (q : ℚ) (mt : JsNum) (s1 : List (Comp IterResult)),
      0 < consumed (.fin q) mt s1 →
      jltB (runMatches (.fin q) mt s1).2.1 (.fin q) = true) := by
  refine ⟨?_, ?_, ?_⟩
  · intro t mt s1 s2
    rw [drainTwice]
    rw [runMatches_budget_eq t mt s1]
  · intro q mt s1
    rw [runMatches_budget_eq, jsub_fin]
  · intro q mt s1 h
    rw [runMatches_budget_eq, jsub_fin]
    have hc : (0 : ℚ) < (consumed (.fin q) mt s1 : ℚ) := by exact_mod_cast h
    exact jltB_fin (by linarith)

/-- Claim C10 witness: a first drain that consumes the whole finite budget
leaves a second drain that times out at once instead of yielding the match
a fresh budget would give. -/
theorem matches_shared_budget_witness :
    drainTwice (.fin 5) .inf [⟨5, .ret .done⟩]
        [⟨1, .ret (.step ⟨"x", 0, [], none, "x"⟩)⟩, ⟨1, .ret .done⟩] =
      ((runMatches (.fin 5) .inf [⟨5, .ret .done⟩]).1,
       (runMatches (jsub (.fin 5) (consumed (.fin 5) .inf [⟨5, .ret .done⟩])) .inf
          [⟨1, .ret (.step ⟨"x", 0, [], none, "x"⟩)⟩, ⟨1, .ret .done⟩]).1,
       (runMatches (jsub (.fin 5) (consumed (.fin 5) .inf [⟨5, .ret .done⟩])) .inf
          [⟨1, .ret (.step ⟨"x", 0, [], none, "x"⟩)⟩, ⟨1, .ret .done⟩]).2.1) ∧
    jltB (runMatches (.fin 5) .inf [⟨5, .ret .done⟩]).2.1 (.fin 5) = true :=
  ⟨matches_shared_budget.1 (.fin 5) .inf [⟨5, .ret .done⟩]
      [⟨1, .ret (.step ⟨"x", 0, [], none, "x"⟩)⟩, ⟨1, .ret .done⟩],
   matches_shared_budget.2.2 5 .inf [⟨5, .ret .done⟩] (by decide)⟩

end SuperRegex
